import Mathlib

/-!
Shallow embedding of the breez Account Outbound-Value subsystem
(LNURL client flows in src/unnamed/part_000, sweep planner in
src/account/sweep.go), together with theorems settling the frozen
claims about it.

Bytes are modelled as `Fin 256`; Go strings as Lean `String`; Go
`error` returns as `Except String` or `Option`; external library
calls (sha256, zpay32.Decode, bip32.NewChildKey, btcec.ParsePubKey,
lnd's sweep.CraftSweepAllTx, the wallet RPCs) are oracle parameters,
since their code is not part of this repository.
-/

namespace Breez

abbrev Byte := Fin 256

/-- Sum of an integer list (used for output values and utxo amounts). -/
def intSum : List Int → Int
  | [] => 0
  | x :: xs => x + intSum xs

/-! ## Hex encoding (Go encoding/hex.EncodeToString)

`FinishLNURLPay` compares the sha256 of the pending metadata with the
invoice description hash through `hex.EncodeToString` on both sides;
`hexEncode` embeds that encoding so we can prove the string comparison
is equivalent to byte-for-byte equality. -/

/-- Lower-case hex digit for a value below 16, as Go encoding/hex emits. -/
def hexDigitChar (n : Nat) : Char :=
  if n < 10 then Char.ofNat (48 + n) else Char.ofNat (87 + n)

/-- One byte to its two hex digits (high nibble first). -/
def hexEncodeByte (b : Byte) : List Char :=
  [hexDigitChar ((b : Nat) / 16), hexDigitChar ((b : Nat) % 16)]

/-- Go hex.EncodeToString on a byte slice, as a character list. -/
def hexEncode : List Byte → List Char
  | [] => []
  | b :: bs => hexEncodeByte b ++ hexEncode bs

theorem hexDigitChar_injOn_aux :
    ∀ n, n < 16 → ∀ m, m < 16 → hexDigitChar n = hexDigitChar m → n = m := by
  decide

theorem hexDigitChar_injOn (n m : Nat) (hn : n < 16) (hm : m < 16)
    (h : hexDigitChar n = hexDigitChar m) : n = m :=
  hexDigitChar_injOn_aux n hn m hm h

theorem hexEncodeByte_inj (b c : Byte) (h : hexEncodeByte b = hexEncodeByte c) :
    b = c := by
  unfold hexEncodeByte at h
  have h1 : hexDigitChar ((b : Nat) / 16) = hexDigitChar ((c : Nat) / 16) :=
    (List.cons.injEq _ _ _ _ ▸ h).1
  have h2 : hexDigitChar ((b : Nat) % 16) = hexDigitChar ((c : Nat) % 16) := by
    have := (List.cons.injEq _ _ _ _ ▸ h).2
    exact (List.cons.injEq _ _ _ _ ▸ this).1
  have hbdiv : (b : Nat) / 16 < 16 := by
    have := b.isLt
    omega
  have hcdiv : (c : Nat) / 16 < 16 := by
    have := c.isLt
    omega
  have e1 : (b : Nat) / 16 = (c : Nat) / 16 :=
    hexDigitChar_injOn _ _ hbdiv hcdiv h1
  have e2 : (b : Nat) % 16 = (c : Nat) % 16 :=
    hexDigitChar_injOn _ _ (Nat.mod_lt _ (by norm_num)) (Nat.mod_lt _ (by norm_num)) h2
  have : (b : Nat) = (c : Nat) := by omega
  exact Fin.ext this

theorem hexEncode_inj : ∀ (bs cs : List Byte), hexEncode bs = hexEncode cs → bs = cs
  | [], [], _ => rfl
  | [], _ :: _, h => by simp [hexEncode, hexEncodeByte] at h
  | _ :: _, [], h => by simp [hexEncode, hexEncodeByte] at h
  | b :: bs, c :: cs, h => by
    simp only [hexEncode, hexEncodeByte, List.cons_append, List.nil_append,
      List.cons.injEq] at h
    obtain ⟨h1, h2, h3⟩ := h
    have hb : b = c := hexEncodeByte_inj b c (by simp [hexEncodeByte, h1, h2])
    have hbs : bs = cs := hexEncode_inj bs cs h3
    rw [hb, hbs]

/-! ## FinishLNURLPay (src/unnamed/part_000 lines 235-436)

We embed the decision core of FinishLNURLPay: everything from decoding
the HTTP response body onward (the callback-URL construction, the
random nonce and the GET itself only produce the `payResponse2` value
consumed here, so the verification logic is a pure function of that
response, the pending metadata captured at resolution time, and the
caller's params).  External functions are oracle parameters:
`sha` is crypto/sha256.Sum256 on the UTF-8 bytes of a string,
`decodeInvoice` is zpay32.Decode for the active network, and
`metaDescription` is go-lnurl's Metadata.Description. -/

/-- lnurl.SuccessAction as decoded from the LNURL-pay response. -/
structure SuccessAction where
  tag : String
  description : String
  url : String
  message : String
  ciphertext : String
  iv : String
  deriving DecidableEq

/-- The already-JSON-decoded lnurl.LNURLPayResponse2 body. -/
structure PayResponse2 where
  status : String
  reason : String
  pr : String
  routes : List (List String)
  successAction : Option SuccessAction
  deriving DecidableEq

/-- The fields of a zpay32-decoded invoice used by FinishLNURLPay.
DescriptionHash and MilliSat are pointers in the source, hence Options;
paymentHash is a 32-byte array. -/
structure Invoice where
  descriptionHash : Option (List Byte)
  milliSat : Option Nat
  paymentHash : List Byte
  deriving DecidableEq

/-- data.LNURLPayResponse1 params as passed by the caller. -/
structure PayParams where
  host : String
  callback : String
  amount : Nat
  comment : String
  metadata : List (List String)
  deriving DecidableEq

/-- data.LNUrlPayInfo as persisted on success. -/
structure LNUrlPayInfo where
  paymentHash : String
  successAction : Option SuccessAction
  comment : String
  invoiceDescription : String
  host : String
  metadata : List (List String)
  invoice : String
  deriving DecidableEq

/-- Outcome of the FinishLNURLPay decision core.  `nilDeref` marks a Go
nil-pointer dereference (a runtime panic, not an error return). -/
inductive PayOutcome where
  | ok (info : LNUrlPayInfo)
  | err (msg : String)
  | nilDeref
  deriving DecidableEq

/-- The verification/persistence core of FinishLNURLPay, from the JSON
body decode onward (src/unnamed/part_000 lines 351-435).  In source
order: the ERROR-status envelope check, zpay32 decode of `pr`, the
nil description-hash check, the hex-string comparison of
sha256(pending encoded metadata) against the invoice description hash,
the dereference of invoice.MilliSat inside the amount comparison (a
nil MilliSat panics there — no check precedes it), the successAction
tag whitelist, and construction of the LNUrlPayInfo record. -/
def finishLNURLPay (sha : String → List Byte)
    (decodeInvoice : String → Option Invoice)
    (metaDescription : List (List String) → String)
    (pendingEncoded : String) (pendingData : List (List String))
    (params : PayParams) (resp : PayResponse2) : PayOutcome :=
  if resp.status = "ERROR" then .err resp.reason
  else
    match decodeInvoice resp.pr with
    | none => .err "zpay32 decode error"
    | some invoice =>
      match invoice.descriptionHash with
      | none => .err "Description hash not found in invoice."
      | some dh =>
        if hexEncode (sha pendingEncoded) ≠ hexEncode dh then
          .err "Invoice description hash does not match metadata."
        else
          match invoice.milliSat with
          | none => .nilDeref
          | some msat =>
            if params.amount ≠ msat then
              .err "Invoice amount does not match the amount set by user."
            else
              match resp.successAction with
              | some sa =>
                if sa.tag ≠ "message" ∧ sa.tag ≠ "url" ∧ sa.tag ≠ "aes" then
                  .err ("Unknown SuccessAction: " ++ sa.tag)
                else
                  .ok { paymentHash := (hexEncode invoice.paymentHash).asString
                        successAction := some sa
                        comment := params.comment
                        invoiceDescription := metaDescription pendingData
                        host := params.host
                        metadata := params.metadata
                        invoice := resp.pr }
              | none =>
                .ok { paymentHash := (hexEncode invoice.paymentHash).asString
                      successAction := none
                      comment := params.comment
                      invoiceDescription := metaDescription pendingData
                      host := params.host
                      metadata := params.metadata
                      invoice := resp.pr }

/-- Inversion: a successful FinishLNURLPay run passed every check on the
way: non-ERROR envelope, invoice decode, a present description hash
equal (byte-for-byte) to sha256 of the pending encoded metadata, and a
present invoice amount equal to the requested amount. -/
theorem finishLNURLPay_ok_inv (sha : String → List Byte)
    (decodeInvoice : String → Option Invoice)
    (metaDescription : List (List String) → String)
    (pendingEncoded : String) (pendingData : List (List String))
    (params : PayParams) (resp : PayResponse2) (info : LNUrlPayInfo)
    (h : finishLNURLPay sha decodeInvoice metaDescription pendingEncoded
          pendingData params resp = .ok info) :
    resp.status ≠ "ERROR" ∧
    ∃ invoice dh msat,
      decodeInvoice resp.pr = some invoice ∧
      invoice.descriptionHash = some dh ∧
      sha pendingEncoded = dh ∧
      invoice.milliSat = some msat ∧
      params.amount = msat := by
  unfold finishLNURLPay at h
  by_cases hs : resp.status = "ERROR"
  · rw [if_pos hs] at h
    exact absurd h (by simp)
  · rw [if_neg hs] at h
    refine ⟨hs, ?_⟩
    cases hd : decodeInvoice resp.pr with
    | none => simp [hd] at h
    | some invoice =>
      simp only [hd] at h
      cases hdh : invoice.descriptionHash with
      | none => simp [hdh] at h
      | some dh =>
        simp only [hdh] at h
        by_cases hh : hexEncode (sha pendingEncoded) = hexEncode dh
        · rw [if_neg (fun hne => hne hh)] at h
          cases hm : invoice.milliSat with
          | none => simp [hm] at h
          | some msat =>
            simp only [hm] at h
            by_cases ha : params.amount = msat
            · exact ⟨invoice, dh, msat, rfl, hdh, hexEncode_inj _ _ hh, hm, ha⟩
            · rw [if_pos ha] at h
              exact absurd h (by simp)
        · rw [if_pos hh] at h
          exact absurd h (by simp)

/-- C1: FinishLNURLPay accepts an invoice only if sha256 of the encoded
metadata captured at resolution time equals the invoice description
hash byte-for-byte; whenever the decoded invoice's description hash
differs from sha256 of the pending encoded metadata, the call fails
with the hash-mismatch error and returns no PayInfo. -/
theorem FinishLNURLPay_descriptionHash_check (sha : String → List Byte)
    (decodeInvoice : String → Option Invoice)
    (metaDescription : List (List String) → String)
    (pendingEncoded : String) (pendingData : List (List String))
    (params : PayParams) (resp : PayResponse2) :
    (∀ info, finishLNURLPay sha decodeInvoice metaDescription pendingEncoded
        pendingData params resp = .ok info →
      ∃ invoice dh, decodeInvoice resp.pr = some invoice ∧
        invoice.descriptionHash = some dh ∧ sha pendingEncoded = dh) ∧
    (∀ invoice dh, resp.status ≠ "ERROR" →
      decodeInvoice resp.pr = some invoice →
      invoice.descriptionHash = some dh →
      sha pendingEncoded ≠ dh →
      finishLNURLPay sha decodeInvoice metaDescription pendingEncoded
        pendingData params resp =
        .err "Invoice description hash does not match metadata.") := by
  constructor
  · intro info h
    obtain ⟨-, invoice, dh, -, hd, hdh, hsha, -⟩ :=
      finishLNURLPay_ok_inv sha decodeInvoice metaDescription pendingEncoded
        pendingData params resp info h
    exact ⟨invoice, dh, hd, hdh, hsha⟩
  · intro invoice dh hs hd hdh hne
    unfold finishLNURLPay
    rw [if_neg hs]
    simp only [hd, hdh]
    rw [if_pos (fun hcontra => hne (hexEncode_inj _ _ hcontra))]

/-- C4: FinishLNURLPay accepts the invoice only if the invoice amount in
millisatoshi exactly equals the requested amount in params; when the
invoice decodes with a present amount differing from the request, the
call fails with the amount-mismatch error. -/
theorem FinishLNURLPay_amount_check (sha : String → List Byte)
    (decodeInvoice : String → Option Invoice)
    (metaDescription : List (List String) → String)
    (pendingEncoded : String) (pendingData : List (List String))
    (params : PayParams) (resp : PayResponse2) :
    (∀ info, finishLNURLPay sha decodeInvoice metaDescription pendingEncoded
        pendingData params resp = .ok info →
      ∃ invoice msat, decodeInvoice resp.pr = some invoice ∧
        invoice.milliSat = some msat ∧ params.amount = msat) ∧
    (∀ invoice dh msat, resp.status ≠ "ERROR" →
      decodeInvoice resp.pr = some invoice →
      invoice.descriptionHash = some dh →
      sha pendingEncoded = dh →
      invoice.milliSat = some msat →
      params.amount ≠ msat →
      finishLNURLPay sha decodeInvoice metaDescription pendingEncoded
        pendingData params resp =
        .err "Invoice amount does not match the amount set by user.") := by
  constructor
  · intro info h
    obtain ⟨-, invoice, dh, msat, hd, -, -, hm, ha⟩ :=
      finishLNURLPay_ok_inv sha decodeInvoice metaDescription pendingEncoded
        pendingData params resp info h
    exact ⟨invoice, msat, hd, hm, ha⟩
  · intro invoice dh msat hs hd hdh hsha hm hne
    unfold finishLNURLPay
    rw [if_neg hs]
    simp only [hd, hdh]
    rw [if_neg (fun hcontra => hcontra (by rw [hsha]))]
    simp only [hm]
    rw [if_pos hne]

/-- C10 (implicit): FinishLNURLPay dereferences invoice.MilliSat with no
nil check, so a response whose invoice decodes successfully, passes the
description-hash check, but carries no amount, reaches a nil-pointer
dereference (a panic) rather than any error return. -/
theorem FinishLNURLPay_nil_amount_deref (sha : String → List Byte)
    (decodeInvoice : String → Option Invoice)
    (metaDescription : List (List String) → String)
    (pendingEncoded : String) (pendingData : List (List String))
    (params : PayParams) (resp : PayResponse2) :
    ∀ invoice dh, resp.status ≠ "ERROR" →
      decodeInvoice resp.pr = some invoice →
      invoice.descriptionHash = some dh →
      sha pendingEncoded = dh →
      invoice.milliSat = none →
      finishLNURLPay sha decodeInvoice metaDescription pendingEncoded
        pendingData params resp = .nilDeref := by
  intro invoice dh hs hd hdh hsha hm
  unfold finishLNURLPay
  rw [if_neg hs]
  simp only [hd, hdh]
  rw [if_neg (fun hcontra => hcontra (by rw [hsha]))]
  simp only [hm]

/-! Concrete instances exercising the pay-flow theorems. -/

/-- A fixed stand-in for sha256: maps every string to the bytes 01 02. -/
def shaTest : String → List Byte := fun _ => [1, 2]

/-- A fixed stand-in for go-lnurl Metadata.Description. -/
def mdTest : List (List String) → String := fun _ => "hi"

/-- Caller params requesting 1,000,000 msat. -/
def paramsTest : PayParams :=
  { host := "h", callback := "cb", amount := 1000000, comment := "", metadata := [] }

/-- A successful (non-ERROR) LNURL-pay response envelope. -/
def respOkEnvelope : PayResponse2 :=
  { status := "OK", reason := "", pr := "lnbc1", routes := [], successAction := none }

/-- Invoice whose description hash 03 differs from sha256 = 01 02. -/
def invoiceBadHash : Invoice :=
  { descriptionHash := some [3], milliSat := some 1000000, paymentHash := [7] }

/-- Invoice with matching hash but amount 999,000 msat. -/
def invoiceBadAmount : Invoice :=
  { descriptionHash := some [1, 2], milliSat := some 999000, paymentHash := [7] }

/-- Invoice with matching hash but no amount field (nil MilliSat). -/
def invoiceNoAmount : Invoice :=
  { descriptionHash := some [1, 2], milliSat := none, paymentHash := [7] }

theorem FinishLNURLPay_descriptionHash_check_witness :
    finishLNURLPay shaTest (fun _ => some invoiceBadHash) mdTest "meta" []
      paramsTest respOkEnvelope =
      .err "Invoice description hash does not match metadata." :=
  (FinishLNURLPay_descriptionHash_check shaTest (fun _ => some invoiceBadHash)
      mdTest "meta" [] paramsTest respOkEnvelope).2
    invoiceBadHash [3] (by decide) rfl rfl (by decide)

theorem FinishLNURLPay_amount_check_witness :
    finishLNURLPay shaTest (fun _ => some invoiceBadAmount) mdTest "meta" []
      paramsTest respOkEnvelope =
      .err "Invoice amount does not match the amount set by user." :=
  (FinishLNURLPay_amount_check shaTest (fun _ => some invoiceBadAmount)
      mdTest "meta" [] paramsTest respOkEnvelope).2
    invoiceBadAmount [1, 2] 999000 (by decide) rfl rfl rfl rfl (by decide)

theorem FinishLNURLPay_nil_amount_deref_witness :
    finishLNURLPay shaTest (fun _ => some invoiceNoAmount) mdTest "meta" []
      paramsTest respOkEnvelope = .nilDeref :=
  FinishLNURLPay_nil_amount_deref shaTest (fun _ => some invoiceNoAmount)
    mdTest "meta" [] paramsTest respOkEnvelope
    invoiceNoAmount [1, 2] (by decide) rfl rfl rfl rfl

/-! ## DecryptLNUrlPayMessage (src/unnamed/part_000 lines 438-472)

The breezDB store is modelled as a function from payment-hash strings
to the optionally-present persisted LNUrlPayInfo record; the fetch is a
lookup and SaveLNUrlPayInfo replaces the entry at the record's key.
go-lnurl's SuccessAction.Decipher is an oracle parameter (its AES-CBC
code is an external library).  The source copies the stored record's
success-action fields into an lnurl.SuccessAction via
info.SuccessAction.Tag etc. with no nil check, so a record persisted
with no success action is a nil dereference, modelled as `nilDeref`. -/

/-- Outcome of DecryptLNUrlPayMessage: returned message or error, or a
Go nil-pointer dereference. -/
inductive DecryptOutcome where
  | ok (message : String)
  | err (msg : String)
  | nilDeref
  deriving DecidableEq

/-- DecryptLNUrlPayMessage, returning the outcome together with the
store after the call.  In source order: fetch by payment hash; if a
record is present, copy its success-action fields (nil dereference when
absent), fail when the ciphertext is empty, decipher with the preimage,
write the deciphered message into the record and persist it; a missing
record fails. -/
def decryptLNUrlPayMessage
    (decipher : SuccessAction → List Byte → Except String String)
    (store : String → Option LNUrlPayInfo)
    (paymentHash : String) (preimage : List Byte) :
    DecryptOutcome × (String → Option LNUrlPayInfo) :=
  match store paymentHash with
  | some info =>
    match info.successAction with
    | none => (.nilDeref, store)
    | some sa =>
      if sa.ciphertext = "" then
        (.err "LNUrl-Pay CipherText is empty.", store)
      else
        match decipher sa preimage with
        | .error e => (.err ("Could not decrypt message: " ++ e), store)
        | .ok message =>
          let saved : LNUrlPayInfo :=
            { info with successAction := some { sa with message := message } }
          (.ok message,
           fun k => if k = paymentHash then some saved else store k)
  | none =>
    (.err "DecryptLNUrlPayMessage: could not find lnUrlPayInfo with given paymentHash.",
     store)

/-- A persisted record whose success action has tag "url" (not "aes")
and a non-empty ciphertext. -/
def payInfoUrlTag : LNUrlPayInfo :=
  { paymentHash := "ph"
    successAction := some
      { tag := "url", description := "d", url := "u", message := ""
        ciphertext := "Zm9v", iv := "aXY=" }
    comment := "", invoiceDescription := "", host := "h", metadata := []
    invoice := "lnbc1" }

/-- A decipher oracle standing for a successful AES-CBC decryption
(a well-formed ciphertext/iv pair under the correct preimage key). -/
def decipherOkTest : SuccessAction → List Byte → Except String String :=
  fun _ _ => .ok "hello"

/-- C8 counterexample: the code never inspects successAction.tag — a
persisted record with tag "url" and a decipherable non-empty ciphertext
is decrypted successfully instead of failing with NotDecryptable. -/
theorem DecryptLNUrlPayMessage_tag_not_checked :
    (decryptLNUrlPayMessage decipherOkTest
        (fun k => if k = "ph" then some payInfoUrlTag else none)
        "ph" (List.replicate 32 7)).1 = .ok "hello" := by
  decide

/-- C8 amended: success-action decryption requires only a non-empty
stored ciphertext; every persisted record (with a present success
action) whose ciphertext is empty fails with the NotDecryptable error
and returns no plaintext, whatever its tag — the tag is not inspected. -/
theorem DecryptLNUrlPayMessage_empty_ciphertext
    (decipher : SuccessAction → List Byte → Except String String)
    (store : String → Option LNUrlPayInfo)
    (paymentHash : String) (preimage : List Byte)
    (info : LNUrlPayInfo) (sa : SuccessAction)
    (hfetch : store paymentHash = some info)
    (hsa : info.successAction = some sa)
    (hct : sa.ciphertext = "") :
    decryptLNUrlPayMessage decipher store paymentHash preimage =
      (.err "LNUrl-Pay CipherText is empty.", store) := by
  unfold decryptLNUrlPayMessage
  simp only [hfetch, hsa]
  rw [if_pos hct]

/-- A persisted record with an empty success-action ciphertext. -/
def payInfoEmptyCipher : LNUrlPayInfo :=
  { paymentHash := "ph2"
    successAction := some
      { tag := "message", description := "", url := "", message := "m"
        ciphertext := "", iv := "" }
    comment := "", invoiceDescription := "", host := "h", metadata := []
    invoice := "lnbc1" }

theorem DecryptLNUrlPayMessage_empty_ciphertext_witness :
    decryptLNUrlPayMessage decipherOkTest
        (fun k => if k = "ph2" then some payInfoEmptyCipher else none)
        "ph2" (List.replicate 32 7) =
      (.err "LNUrl-Pay CipherText is empty.",
       fun k => if k = "ph2" then some payInfoEmptyCipher else none) :=
  DecryptLNUrlPayMessage_empty_ciphertext decipherOkTest
    (fun k => if k = "ph2" then some payInfoEmptyCipher else none)
    "ph2" (List.replicate 32 7) payInfoEmptyCipher
    { tag := "message", description := "", url := "", message := "m"
      ciphertext := "", iv := "" }
    (by decide) rfl rfl

/-- C9: when the decipher of the stored ciphertext fails (e.g. a wrong
preimage key), DecryptLNUrlPayMessage returns an error and the store is
exactly the store before the call — the write happens only after a
successful decipher. -/
theorem DecryptLNUrlPayMessage_store_unchanged_on_failure
    (decipher : SuccessAction → List Byte → Except String String)
    (store : String → Option LNUrlPayInfo)
    (paymentHash : String) (preimage : List Byte)
    (info : LNUrlPayInfo) (sa : SuccessAction) (e : String)
    (hfetch : store paymentHash = some info)
    (hsa : info.successAction = some sa)
    (hct : sa.ciphertext ≠ "")
    (hdec : decipher sa preimage = .error e) :
    decryptLNUrlPayMessage decipher store paymentHash preimage =
      (.err ("Could not decrypt message: " ++ e), store) := by
  unfold decryptLNUrlPayMessage
  simp only [hfetch, hsa]
  rw [if_neg hct]
  simp only [hdec]

/-- A decipher oracle standing for decryption with an incorrect key. -/
def decipherFailTest : SuccessAction → List Byte → Except String String :=
  fun _ _ => .error "bad key"

theorem DecryptLNUrlPayMessage_store_unchanged_on_failure_witness :
    decryptLNUrlPayMessage decipherFailTest
        (fun k => if k = "ph" then some payInfoUrlTag else none)
        "ph" (List.replicate 32 9) =
      (.err ("Could not decrypt message: " ++ "bad key"),
       fun k => if k = "ph" then some payInfoUrlTag else none) :=
  DecryptLNUrlPayMessage_store_unchanged_on_failure decipherFailTest
    (fun k => if k = "ph" then some payInfoUrlTag else none)
    "ph" (List.replicate 32 9) payInfoUrlTag
    { tag := "url", description := "d", url := "u", message := ""
      ciphertext := "Zm9v", iv := "aXY=" }
    "bad key" (by decide) rfl (by decide) rfl

/-! ## FinishLNURLAuth key derivation (src/unnamed/part_000 lines 117-233)

getLNURLAuthKey fetches the seed and builds a bip32 master key; the
link key is then derived from HMAC-SHA256(key = masterKey.Key,
message = host): the first 16 bytes are split into four 4-byte
big-endian integers and used as four sequential child-key indices.

The source's per-step retry loop is, verbatim,

  for key, err = key.NewChildKey(nextChildIndex); err != nil; {
      nextChildIndex++
  }

whose init statement runs once; the body only increments
nextChildIndex and never calls NewChildKey again, so err can never
change: if the first derivation at a step fails, the loop spins
forever.  `childSpin` embeds that body (with a fuel bound standing for
the number of iterations observed) and `childLoop` the whole loop.
bip32.NewChildKey and HMAC-SHA256 are oracle parameters (external
libraries). -/

/-- A go-bip32 key: `key` is the .Key byte field consumed by the HMAC
and by the final PrivKeyFromBytes; `chainCode` stands for the rest of
the key material that NewChildKey consumes. -/
structure Bip32Key where
  key : List Byte
  chainCode : List Byte
  deriving DecidableEq

/-- The retry loop's body after a failed init: nextChildIndex++ and
re-test the unchanged err.  Fuel counts loop iterations; no iteration
count ever produces a key. -/
def childSpin (idx : Nat) : Nat → Option Bip32Key
  | 0 => none
  | fuel + 1 => childSpin (idx + 1) fuel

/-- The source loop at one derivation step: run NewChildKey once (the
init statement); exit with the child on success, otherwise spin. -/
def childLoop (newChildKey : Bip32Key → Nat → Option Bip32Key)
    (key : Bip32Key) (idx : Nat) (fuel : Nat) : Option Bip32Key :=
  match newChildKey key idx with
  | some child => some child
  | none => childSpin (idx + 1) fuel

/-- Byte of a list at an index, as a Nat (HMAC-SHA256 output always has
32 bytes, so the indices 0..15 used below are in range). -/
def byteAt (bs : List Byte) (i : Nat) : Nat := ((bs.getD i 0 : Byte) : Nat)

/-- binary.BigEndian.Uint32 over first16[4*i : 4*i+4]. -/
def be32At (bs : List Byte) (i : Nat) : Nat :=
  byteAt bs (4 * i) * 16777216 + byteAt bs (4 * i + 1) * 65536 +
    byteAt bs (4 * i + 2) * 256 + byteAt bs (4 * i + 3)

/-- The four sequential child derivations over the listed step indices. -/
def deriveChildren (newChildKey : Bip32Key → Nat → Option Bip32Key)
    (fuel : Nat) (first16 : List Byte) :
    List Nat → Bip32Key → Option Bip32Key
  | [], key => some key
  | i :: rest, key =>
    match childLoop newChildKey key (be32At first16 i) fuel with
    | some child => deriveChildren newChildKey fuel first16 rest child
    | none => none

/-- The key-computation portion of FinishLNURLAuth: HMAC the host with
the master key's Key field, take the first 16 bytes, and perform the
four child derivations; the result is the final child's Key bytes (the
linking private key handed to PrivKeyFromBytes). -/
def deriveLinkKey (hmacSHA256 : List Byte → List Byte → List Byte)
    (newChildKey : Bip32Key → Nat → Option Bip32Key)
    (fuel : Nat) (masterKey : Bip32Key) (host : List Byte) :
    Option (List Byte) :=
  let sha := hmacSHA256 masterKey.key host
  let first16 := sha.take 16
  (deriveChildren newChildKey fuel first16 [0, 1, 2, 3] masterKey).map Bip32Key.key

theorem childSpin_eq_none (idx : Nat) : ∀ fuel, childSpin idx fuel = none := by
  intro fuel
  induction fuel generalizing idx with
  | zero => rfl
  | succ n ih => exact ih (idx + 1)

/-- C2: when NewChildKey fails at the index first attempted at a step,
the source's retry loop never terminates — for every number of
iterations it has produced no key — and in particular it never reaches
any bounded-attempts exhaustion error. -/
theorem FinishLNURLAuth_retry_loop_never_terminates
    (newChildKey : Bip32Key → Nat → Option Bip32Key)
    (key : Bip32Key) (idx : Nat)
    (hfail : newChildKey key idx = none) :
    ∀ fuel, childLoop newChildKey key idx fuel = none := by
  intro fuel
  unfold childLoop
  rw [hfail]
  exact childSpin_eq_none (idx + 1) fuel

theorem FinishLNURLAuth_retry_loop_never_terminates_witness :
    childLoop (fun _ _ => none) { key := [1], chainCode := [2] } 5 1000 = none :=
  FinishLNURLAuth_retry_loop_never_terminates (fun _ _ => none)
    { key := [1], chainCode := [2] } 5 rfl 1000

/-- On success, childLoop's value is exactly the single NewChildKey
call's value, independently of fuel. -/
theorem childLoop_ok_iff (newChildKey : Bip32Key → Nat → Option Bip32Key)
    (key : Bip32Key) (idx : Nat) (fuel : Nat) (child : Bip32Key) :
    childLoop newChildKey key idx fuel = some child ↔
      newChildKey key idx = some child := by
  unfold childLoop
  cases h : newChildKey key idx with
  | none => simp [childSpin_eq_none]
  | some c => simp

theorem deriveChildren_fuel_indep
    (newChildKey : Bip32Key → Nat → Option Bip32Key) (first16 : List Byte) :
    ∀ (steps : List Nat) (key : Bip32Key) (f1 f2 : Nat) (r1 r2 : Bip32Key),
      deriveChildren newChildKey f1 first16 steps key = some r1 →
      deriveChildren newChildKey f2 first16 steps key = some r2 →
      r1 = r2 := by
  intro steps
  induction steps with
  | nil =>
    intro key f1 f2 r1 r2 h1 h2
    simp only [deriveChildren, Option.some.injEq] at h1 h2
    rw [← h1, ← h2]
  | cons i rest ih =>
    intro key f1 f2 r1 r2 h1 h2
    simp only [deriveChildren] at h1 h2
    cases hc1 : childLoop newChildKey key (be32At first16 i) f1 with
    | none => rw [hc1] at h1; exact absurd h1 (by simp)
    | some c1 =>
      cases hc2 : childLoop newChildKey key (be32At first16 i) f2 with
      | none => rw [hc2] at h2; exact absurd h2 (by simp)
      | some c2 =>
        rw [hc1] at h1
        rw [hc2] at h2
        simp only [] at h1 h2
        have hc : c1 = c2 := by
          have e1 := (childLoop_ok_iff newChildKey key (be32At first16 i) f1 c1).mp hc1
          have e2 := (childLoop_ok_iff newChildKey key (be32At first16 i) f2 c2).mp hc2
          rw [e1] at e2
          exact Option.some.inj e2
        rw [hc] at h1
        exact ih c2 f1 f2 r1 r2 h1 h2

/-- C5: link-key derivation is deterministic — two runs of the
key-computation portion of FinishLNURLAuth on the same (master key,
host), with the same HMAC and NewChildKey functions, that both succeed
(for any iteration bounds) yield byte-identical linking keys. -/
theorem deriveLinkKey_deterministic
    (hmacSHA256 : List Byte → List Byte → List Byte)
    (newChildKey : Bip32Key → Nat → Option Bip32Key)
    (masterKey : Bip32Key) (host : List Byte)
    (f1 f2 : Nat) (k1 k2 : List Byte)
    (h1 : deriveLinkKey hmacSHA256 newChildKey f1 masterKey host = some k1)
    (h2 : deriveLinkKey hmacSHA256 newChildKey f2 masterKey host = some k2) :
    k1 = k2 := by
  unfold deriveLinkKey at h1 h2
  simp only [] at h1 h2
  cases hd1 : deriveChildren newChildKey f1
      ((hmacSHA256 masterKey.key host).take 16) [0, 1, 2, 3] masterKey with
  | none => rw [hd1] at h1; exact absurd h1 (by simp)
  | some r1 =>
    cases hd2 : deriveChildren newChildKey f2
        ((hmacSHA256 masterKey.key host).take 16) [0, 1, 2, 3] masterKey with
    | none => rw [hd2] at h2; exact absurd h2 (by simp)
    | some r2 =>
      rw [hd1] at h1
      rw [hd2] at h2
      simp only [Option.map_some'] at h1 h2
      have hr : r1 = r2 :=
        deriveChildren_fuel_indep newChildKey _ [0, 1, 2, 3] masterKey
          f1 f2 r1 r2 hd1 hd2
      have e1 : r1.key = k1 := Option.some.inj h1
      have e2 : r2.key = k2 := Option.some.inj h2
      rw [← e1, ← e2, hr]

theorem deriveLinkKey_deterministic_witness : ([3] : List Byte) = [3] :=
  deriveLinkKey_deterministic (fun _ _ => List.replicate 32 0)
    (fun k _ => some { key := [3], chainCode := k.chainCode })
    { key := [1], chainCode := [2] } [104] 1 2 [3] [3] rfl rfl

/-! ## SweepAllCoinsTransactions (src/account/sweep.go)

The planner's collaborators are oracle fields of `SweepEnv`:
btcutil.DecodeAddress / IsForNet, btcec.ParsePubKey (as a validity
predicate), the GetInfo and EstimateFee wallet RPCs, the ListUnspent
RPC response per tier, lnd's sweep.CraftSweepAllTx (the external
builder, whose rejections are split into blockchain.RuleError and any
other error exactly as the errors.As test at sweep.go:113-116 does),
and transaction serialization/hashing.  The rpcUtxoSource processing of
the ListUnspent response (sweep.go:166-214) is embedded concretely as
`listUnspentLoop`, including the accumulated totalAmount used for fee
accounting.  hex.DecodeString is embedded concretely; the sweep
destination check ignores its error and uses the bytes decoded so far
(`hexDecodePartial`), as `decodedAddr, _ := hex.DecodeString(address)`
does. -/

/-- Value of a hex digit character, none for a non-digit. -/
def hexDigitVal (c : Char) : Option Nat :=
  if 48 ≤ c.toNat ∧ c.toNat ≤ 57 then some (c.toNat - 48)
  else if 97 ≤ c.toNat ∧ c.toNat ≤ 102 then some (c.toNat - 87)
  else if 65 ≤ c.toNat ∧ c.toNat ≤ 70 then some (c.toNat - 55)
  else none

/-- Go hex.DecodeString, failing on odd length or a non-hex character. -/
def hexDecodeChars : List Char → Option (List Byte)
  | [] => some []
  | [_] => none
  | c1 :: c2 :: rest =>
    match hexDigitVal c1, hexDigitVal c2, hexDecodeChars rest with
    | some hi, some lo, some bs =>
      some (⟨(16 * hi + lo) % 256, Nat.mod_lt _ (by norm_num)⟩ :: bs)
    | _, _, _ => none

def hexDecode (s : String) : Option (List Byte) := hexDecodeChars s.data

/-- The bytes Go hex.DecodeString has produced when its error is
discarded: all complete, valid pairs before the first bad input. -/
def hexDecodePartialChars : List Char → List Byte
  | c1 :: c2 :: rest =>
    (match hexDigitVal c1, hexDigitVal c2 with
     | some hi, some lo =>
       ⟨(16 * hi + lo) % 256, Nat.mod_lt _ (by norm_num)⟩ ::
         hexDecodePartialChars rest
     | _, _ => [])
  | _ => []

def hexDecodePartial (s : String) : List Byte := hexDecodePartialChars s.data

/-- lnrpc address types distinguished by ListUnspentWitness. -/
inductive RpcAddressType where
  | witnessPubkeyHash
  | nestedPubkeyHash
  | unknownType
  deriving DecidableEq

/-- One entry of the ListUnspent RPC response. -/
structure RawUtxo where
  addressType : RpcAddressType
  amountSat : Int
  confirmations : Int
  pkScript : String
  txidBytes : List Byte
  outputIndex : Nat
  deriving DecidableEq

/-- lnwallet address types produced by the mapping. -/
inductive LnAddressType where
  | witnessPubKey
  | nestedWitnessPubKey
  deriving DecidableEq

/-- lnwallet.Utxo as assembled by ListUnspentWitness. -/
structure LnUtxo where
  addressType : LnAddressType
  value : Int
  confirmations : Int
  pkScript : List Byte
  outPointHash : List Byte
  outPointIndex : Nat
  deriving DecidableEq

/-- The address-type switch of ListUnspentWitness. -/
def lnAddressTypeOf : RpcAddressType → Except String LnAddressType
  | .witnessPubkeyHash => .ok .witnessPubKey
  | .nestedPubkeyHash => .ok .nestedWitnessPubKey
  | .unknownType => .error "invalid utxo address type"

/-- chainhash.Hash.SetBytes: accepts exactly 32 bytes. -/
def setBytes (bs : List Byte) : Except String (List Byte) :=
  if bs.length = 32 then .ok bs else .error "outPointHash.SetBytes"

/-- The rpcUtxoSource.ListUnspentWitness body over an already-received
RPC response: map each entry (failing on unknown address type, bad
pkScript hex, bad txid length) and accumulate totalAmount. -/
def listUnspentLoop : List RawUtxo → Except String (List LnUtxo × Int)
  | [] => .ok ([], 0)
  | u :: rest =>
    match lnAddressTypeOf u.addressType with
    | .error e => .error e
    | .ok atype =>
      match hexDecode u.pkScript with
      | none => .error "hex.DecodeString"
      | some pk =>
        match setBytes u.txidBytes with
        | .error e => .error e
        | .ok oph =>
          match listUnspentLoop rest with
          | .error e => .error e
          | .ok (lus, total) =>
            .ok ({ addressType := atype, value := u.amountSat,
                   confirmations := u.confirmations, pkScript := pk,
                   outPointHash := oph, outPointIndex := u.outputIndex } :: lus,
                 u.amountSat + total)

/-- The accumulated totalAmount of a successful listing is exactly the
sum of the values of the listed UTXOs. -/
theorem listUnspentLoop_total :
    ∀ (raws : List RawUtxo) (lus : List LnUtxo) (total : Int),
      listUnspentLoop raws = .ok (lus, total) →
      total = intSum (lus.map LnUtxo.value) := by
  intro raws
  induction raws with
  | nil =>
    intro lus total h
    simp only [listUnspentLoop, Except.ok.injEq, Prod.mk.injEq] at h
    rw [← h.1, ← h.2]
    rfl
  | cons u rest ih =>
    intro lus total h
    simp only [listUnspentLoop] at h
    cases ha : lnAddressTypeOf u.addressType with
    | error e => rw [ha] at h; exact absurd h (by simp)
    | ok atype =>
      rw [ha] at h
      cases hp : hexDecode u.pkScript with
      | none => rw [hp] at h; exact absurd h (by simp)
      | some pk =>
        simp only [hp] at h
        cases hs : setBytes u.txidBytes with
        | error e => rw [hs] at h; exact absurd h (by simp)
        | ok oph =>
          rw [hs] at h
          cases hr : listUnspentLoop rest with
          | error e => rw [hr] at h; exact absurd h (by simp)
          | ok p =>
            rw [hr] at h
            obtain ⟨lus0, total0⟩ := p
            simp only [Except.ok.injEq, Prod.mk.injEq] at h
            obtain ⟨hl, ht⟩ := h
            rw [← hl, ← ht]
            simp only [List.map_cons, intSum]
            rw [ih lus0 total0 hr]

/-- Opaque decoded btcutil address. -/
structure Address where
  rendered : String
  deriving DecidableEq

/-- The transaction produced by the external sweep builder; only its
output values matter to the planner's accounting. -/
structure SweepTx where
  txOut : List Int
  deriving DecidableEq

/-- Failures of sweep.CraftSweepAllTx, split exactly as the
errors.As(err, &ruleErr) test does: a blockchain.RuleError or any
other error. -/
inductive CraftError where
  | ruleError (msg : String)
  | otherError (msg : String)
  deriving DecidableEq

/-- data.TransactionDetails of one tier. -/
structure TransactionDetails where
  tx : List Byte
  txHash : String
  fees : Int
  deriving DecidableEq

/-- data.SweepAllCoinsTransactions: the per-tier map (as an association
list keyed by confirmation target, in insertion order) and the common
total amount. -/
structure SweepAllCoins where
  amt : Int
  transactions : List (Nat × TransactionDetails)
  deriving DecidableEq

/-- The planner's external collaborators. -/
structure SweepEnv where
  decodeAddress : String → Option Address
  isForNet : Address → Bool
  parsePubKey : List Byte → Bool
  getInfo : Except String Nat
  estimateFee : Nat → Except String Int
  listUnspent : Nat → Except String (List RawUtxo)
  craft : Nat → Int → Nat → Address → List LnUtxo → Except CraftError SweepTx
  serializeTx : SweepTx → Except String (List Byte)
  txHashStr : SweepTx → String

/-- The fixed confirmation targets (sweep.go:26). -/
def targets : List Nat := [2, 6, 25]

/-- One iteration of the per-target loop (sweep.go:92-136): fee
estimate (failure aborts), fresh rpcUtxoSource listing through the
builder, the builder itself (a RuleError skips the tier, any other
failure aborts), serialization, and the tier record whose fee is
rus.totalAmount minus the sum of the output values.  `.ok none` is a
skipped tier; the Int alongside a produced record is rus.totalAmount,
assigned to the planner's running totalAmount. -/
def processTier (env : SweepEnv) (addr : Address) (height : Nat) (t : Nat) :
    Except String (Option (TransactionDetails × Int)) :=
  match env.estimateFee t with
  | .error e => .error e
  | .ok feePerKw =>
    match env.listUnspent t with
    | .error e => .error e
    | .ok raws =>
      match listUnspentLoop raws with
      | .error e => .error e
      | .ok (lu, total) =>
        match env.craft t feePerKw height addr lu with
        | .error (.ruleError _) => .ok none
        | .error (.otherError e) => .error e
        | .ok tx =>
          match env.serializeTx tx with
          | .error e => .error e
          | .ok raw =>
            .ok (some ({ tx := raw, txHash := env.txHashStr tx,
                         fees := total - intSum tx.txOut }, total))

/-- The per-target loop, threading the accumulated tier map and the
planner's totalAmount (updated only when a tier produces a record). -/
def sweepLoop (env : SweepEnv) (addr : Address) (height : Nat) :
    List Nat → List (Nat × TransactionDetails) → Int →
    Except String (List (Nat × TransactionDetails) × Int)
  | [], td, total => .ok (td, total)
  | t :: rest, td, total =>
    match processTier env addr height t with
    | .error e => .error e
    | .ok none => sweepLoop env addr height rest td total
    | .ok (some (d, rusTotal)) =>
      sweepLoop env addr height rest (td ++ [(t, d)]) rusTotal

/-- SweepAllCoinsTransactions (sweep.go:59-138): decode and
network-check the destination, reject destinations that hex-decode to a
valid public key (the hex error being discarded), fetch the chain
height, and run the per-target loop. -/
def sweepAllCoinsTransactions (env : SweepEnv) (address : String) :
    Except String SweepAllCoins :=
  match env.decodeAddress address with
  | none => .error "DecodeAddress"
  | some targetAddr =>
    if env.isForNet targetAddr = false then
      .error "address is not valid for this network"
    else if env.parsePubKey (hexDecodePartial address) = true then
      .error "cannot send coins to pubkeys"
    else
      match env.getInfo with
      | .error e => .error e
      | .ok height =>
        match sweepLoop env targetAddr height targets [] 0 with
        | .error e => .error e
        | .ok (td, total) => .ok { amt := total, transactions := td }

/-- Inversion of a produced tier record: every stage succeeded, and the
record's fee is the accumulated listing total minus the sum of the
crafted transaction's output values. -/
theorem processTier_some_inv (env : SweepEnv) (addr : Address) (height : Nat)
    (t : Nat) (d : TransactionDetails) (r : Int)
    (h : processTier env addr height t = .ok (some (d, r))) :
    ∃ fee raws lu tx raw,
      env.estimateFee t = .ok fee ∧
      env.listUnspent t = .ok raws ∧
      listUnspentLoop raws = .ok (lu, r) ∧
      env.craft t fee height addr lu = .ok tx ∧
      env.serializeTx tx = .ok raw ∧
      d = { tx := raw, txHash := env.txHashStr tx,
            fees := r - intSum tx.txOut } := by
  unfold processTier at h
  cases hf : env.estimateFee t with
  | error e => rw [hf] at h; exact absurd h (by simp)
  | ok fee =>
    simp only [hf] at h
    cases hl : env.listUnspent t with
    | error e => rw [hl] at h; exact absurd h (by simp)
    | ok raws =>
      simp only [hl] at h
      cases hu : listUnspentLoop raws with
      | error e => rw [hu] at h; exact absurd h (by simp)
      | ok p =>
        simp only [hu] at h
        obtain ⟨lu, total⟩ := p
        simp only [] at h
        cases hc : env.craft t fee height addr lu with
        | error ce =>
          simp only [hc] at h
          cases ce with
          | ruleError m => simp only [] at h; exact absurd h (by simp)
          | otherError m => simp only [] at h; exact absurd h (by simp)
        | ok tx =>
          simp only [hc] at h
          cases hser : env.serializeTx tx with
          | error e => rw [hser] at h; exact absurd h (by simp)
          | ok raw =>
            simp only [hser] at h
            simp only [Except.ok.injEq, Option.some.injEq, Prod.mk.injEq] at h
            obtain ⟨hd, htot⟩ := h
            subst htot
            exact ⟨fee, raws, lu, tx, raw, rfl, rfl, hu, hc, hser, hd.symm⟩

/-- Everything the finished loop holds either was in the accumulator or
is a record its own tier produced. -/
theorem sweepLoop_mem (env : SweepEnv) (addr : Address) (height : Nat) :
    ∀ (ts : List Nat) (acc : List (Nat × TransactionDetails)) (tot : Int)
      (td : List (Nat × TransactionDetails)) (total : Int),
      sweepLoop env addr height ts acc tot = .ok (td, total) →
      ∀ p, p ∈ td → p ∈ acc ∨
        (p.1 ∈ ts ∧ ∃ r, processTier env addr height p.1 = .ok (some (p.2, r))) := by
  intro ts
  induction ts with
  | nil =>
    intro acc tot td total h p hp
    simp only [sweepLoop, Except.ok.injEq, Prod.mk.injEq] at h
    rw [← h.1] at hp
    exact Or.inl hp
  | cons t rest ih =>
    intro acc tot td total h p hp
    simp only [sweepLoop] at h
    cases hpt : processTier env addr height t with
    | error e => rw [hpt] at h; exact absurd h (by simp)
    | ok o =>
      rw [hpt] at h
      cases o with
      | none =>
        simp only [] at h
        rcases ih acc tot td total h p hp with hin | ⟨hmem, hr⟩
        · exact Or.inl hin
        · exact Or.inr ⟨List.mem_cons_of_mem t hmem, hr⟩
      | some dr =>
        obtain ⟨d, r⟩ := dr
        simp only [] at h
        rcases ih (acc ++ [(t, d)]) r td total h p hp with hin | ⟨hmem, hr⟩
        · rcases List.mem_append.mp hin with hin2 | hin2
          · exact Or.inl hin2
          · have hpd : p = (t, d) := by simpa using hin2
            refine Or.inr ⟨?_, ⟨r, ?_⟩⟩
            · rw [hpd]; exact List.mem_cons_self t rest
            · rw [hpd]; exact hpt
        · exact Or.inr ⟨List.mem_cons_of_mem t hmem, hr⟩

/-- The loop only appends: the accumulator survives into the result. -/
theorem sweepLoop_acc_sub (env : SweepEnv) (addr : Address) (height : Nat) :
    ∀ (ts : List Nat) (acc : List (Nat × TransactionDetails)) (tot : Int)
      (td : List (Nat × TransactionDetails)) (total : Int),
      sweepLoop env addr height ts acc tot = .ok (td, total) →
      ∀ p, p ∈ acc → p ∈ td := by
  intro ts
  induction ts with
  | nil =>
    intro acc tot td total h p hp
    simp only [sweepLoop, Except.ok.injEq, Prod.mk.injEq] at h
    rw [← h.1]
    exact hp
  | cons t rest ih =>
    intro acc tot td total h p hp
    simp only [sweepLoop] at h
    cases hpt : processTier env addr height t with
    | error e => rw [hpt] at h; exact absurd h (by simp)
    | ok o =>
      rw [hpt] at h
      cases o with
      | none => exact ih acc tot td total h p hp
      | some dr =>
        obtain ⟨d, r⟩ := dr
        exact ih (acc ++ [(t, d)]) r td total h p (List.mem_append_left _ hp)

/-- Every tier in the list that produces a record appears in the
finished loop's map. -/
theorem sweepLoop_complete (env : SweepEnv) (addr : Address) (height : Nat) :
    ∀ (ts : List Nat) (acc : List (Nat × TransactionDetails)) (tot : Int)
      (td : List (Nat × TransactionDetails)) (total : Int),
      sweepLoop env addr height ts acc tot = .ok (td, total) →
      ∀ t d r, t ∈ ts → processTier env addr height t = .ok (some (d, r)) →
        (t, d) ∈ td := by
  intro ts
  induction ts with
  | nil =>
    intro acc tot td total h t d r hmem
    exact absurd hmem (List.not_mem_nil t)
  | cons t0 rest ih =>
    intro acc tot td total h t d r hmem hpt
    simp only [sweepLoop] at h
    cases hpt0 : processTier env addr height t0 with
    | error e => rw [hpt0] at h; exact absurd h (by simp)
    | ok o =>
      rw [hpt0] at h
      rcases List.mem_cons.mp hmem with heq | hrest
      · subst heq
        rw [hpt] at hpt0
        cases o with
        | none => exact absurd hpt0 (by simp)
        | some dr =>
          obtain ⟨d0, r0⟩ := dr
          have hd : d0 = d ∧ r0 = r := by
            have := Except.ok.inj hpt0
            have := Option.some.inj this
            exact ⟨(Prod.mk.injEq _ _ _ _ ▸ this).1.symm,
                   (Prod.mk.injEq _ _ _ _ ▸ this).2.symm⟩
          simp only [] at h
          refine sweepLoop_acc_sub env addr height rest (acc ++ [(t, d0)]) r0
            td total h (t, d) ?_
          rw [hd.1]
          exact List.mem_append_right _ (by simp)
      · cases o with
        | none => exact ih acc tot td total h t d r hrest hpt
        | some dr =>
          obtain ⟨d0, r0⟩ := dr
          exact ih (acc ++ [(t0, d0)]) r0 td total h t d r hrest hpt

/-- If any tier in the list aborts, the whole loop returns an error. -/
theorem sweepLoop_abort (env : SweepEnv) (addr : Address) (height : Nat) :
    ∀ (ts : List Nat) (acc : List (Nat × TransactionDetails)) (tot : Int)
      (t : Nat) (e : String), t ∈ ts →
      processTier env addr height t = .error e →
      ∃ e2, sweepLoop env addr height ts acc tot = .error e2 := by
  intro ts
  induction ts with
  | nil =>
    intro acc tot t e hmem
    exact absurd hmem (List.not_mem_nil t)
  | cons t0 rest ih =>
    intro acc tot t e hmem hpt
    cases hpt0 : processTier env addr height t0 with
    | error e0 => exact ⟨e0, by simp only [sweepLoop, hpt0]⟩
    | ok o =>
      have hne : t ≠ t0 := by
        intro hcontra
        rw [hcontra, hpt0] at hpt
        exact absurd hpt (by simp)
      have hrest : t ∈ rest := by
        rcases List.mem_cons.mp hmem with heq | hr
        · exact absurd heq hne
        · exact hr
      cases o with
      | none =>
        obtain ⟨e2, h2⟩ := ih acc tot t e hrest hpt
        exact ⟨e2, by simp only [sweepLoop, hpt0]; exact h2⟩
      | some dr =>
        obtain ⟨d, r⟩ := dr
        obtain ⟨e2, h2⟩ := ih (acc ++ [(t0, d)]) r t e hrest hpt
        exact ⟨e2, by simp only [sweepLoop, hpt0]; exact h2⟩

/-- With the destination checks passed and the height fetched, the
planner is the per-target loop. -/
theorem sweepAll_reduces (env : SweepEnv) (address : String) (addr : Address)
    (height : Nat)
    (hdec : env.decodeAddress address = some addr)
    (hnet : env.isForNet addr = true)
    (hpk : env.parsePubKey (hexDecodePartial address) = false)
    (hinfo : env.getInfo = .ok height) :
    sweepAllCoinsTransactions env address =
      match sweepLoop env addr height targets [] 0 with
      | .error e => .error e
      | .ok (td, total) => .ok { amt := total, transactions := td } := by
  unfold sweepAllCoinsTransactions
  simp only [hdec]
  rw [if_neg (by rw [hnet]; simp)]
  rw [if_neg (by rw [hpk]; simp)]
  simp only [hinfo]

/-- C3: for every sweep transaction produced across all tiers, the
reported fee equals the sum of the values of the listed input UTXOs
minus the sum of the transaction's output values, and — given that the
external builder's crafted transaction pays out strictly less than the
swept total (it deducts a positive fee from the inputs it was given) —
the reported fee is strictly positive. -/
theorem SweepAllCoinsTransactions_fee_accounting (env : SweepEnv)
    (address : String)
    (hcraft : ∀ t fee height addr lu tx,
      env.craft t fee height addr lu = .ok tx →
      intSum tx.txOut < intSum (lu.map LnUtxo.value)) :
    ∀ res t td, sweepAllCoinsTransactions env address = .ok res →
      (t, td) ∈ res.transactions →
      ∃ raws lu tx,
        env.listUnspent t = .ok raws ∧
        (∃ total, listUnspentLoop raws = .ok (lu, total)) ∧
        (∃ fee height2 addr2, env.craft t fee height2 addr2 lu = .ok tx) ∧
        td.fees = intSum (lu.map LnUtxo.value) - intSum tx.txOut ∧
        0 < td.fees := by
  intro res t td hall hmem
  unfold sweepAllCoinsTransactions at hall
  cases hdec : env.decodeAddress address with
  | none => rw [hdec] at hall; exact absurd hall (by simp)
  | some addr =>
    simp only [hdec] at hall
    by_cases hnet : env.isForNet addr = false
    · rw [if_pos hnet] at hall; exact absurd hall (by simp)
    · rw [if_neg hnet] at hall
      by_cases hpk : env.parsePubKey (hexDecodePartial address) = true
      · rw [if_pos hpk] at hall; exact absurd hall (by simp)
      · rw [if_neg hpk] at hall
        cases hinfo : env.getInfo with
        | error e => rw [hinfo] at hall; exact absurd hall (by simp)
        | ok height =>
          simp only [hinfo] at hall
          cases hloop : sweepLoop env addr height targets [] 0 with
          | error e => rw [hloop] at hall; exact absurd hall (by simp)
          | ok p =>
            simp only [hloop] at hall
            obtain ⟨tdl, total⟩ := p
            simp only [] at hall
            have hres : res = { amt := total, transactions := tdl } :=
              (Except.ok.inj hall).symm
            rw [hres] at hmem
            rcases sweepLoop_mem env addr height targets [] 0 tdl total hloop
                (t, td) hmem with hin | ⟨-, r, hpt⟩
            · exact absurd hin (List.not_mem_nil _)
            · have hpt2 : processTier env addr height t = .ok (some (td, r)) := hpt
              obtain ⟨fee, raws, lu, tx, raw, -, hl, hu, hc, -, hd⟩ :=
                processTier_some_inv env addr height t td r hpt2
              have htot : r = intSum (lu.map LnUtxo.value) :=
                listUnspentLoop_total raws lu r hu
              have hlt := hcraft t fee height addr lu tx hc
              refine ⟨raws, lu, tx, hl, ⟨r, hu⟩, ⟨fee, height, addr, hc⟩, ?_, ?_⟩
              · rw [hd]
                simp only []
                rw [htot]
              · rw [hd]
                simp only []
                omega

/-- C6: a destination string whose hex decoding is a valid secp256k1
public key is rejected with the cannot-send-to-pubkeys error (and no
transactions are produced), even when the string decodes as a valid
address for the active network. -/
theorem SweepAllCoinsTransactions_rejects_pubkey (env : SweepEnv)
    (address : String) (addr : Address)
    (hdec : env.decodeAddress address = some addr)
    (hnet : env.isForNet addr = true)
    (hpk : env.parsePubKey (hexDecodePartial address) = true) :
    sweepAllCoinsTransactions env address =
      .error "cannot send coins to pubkeys" := by
  unfold sweepAllCoinsTransactions
  simp only [hdec]
  rw [if_neg (by rw [hnet]; simp)]
  rw [if_pos hpk]

/-- C7: a tier whose builder run fails with a consensus/policy rule
error is omitted from the result map while every other record-producing
tier still appears; a tier whose builder (or fee estimate, listing,
serialization) fails in any other way aborts the whole planning call
with an error. -/
theorem SweepAllCoinsTransactions_tier_skip_abort (env : SweepEnv)
    (address : String) (addr : Address) (height : Nat) (t : Nat)
    (hdec : env.decodeAddress address = some addr)
    (hnet : env.isForNet addr = true)
    (hpk : env.parsePubKey (hexDecodePartial address) = false)
    (hinfo : env.getInfo = .ok height)
    (ht : t ∈ targets) :
    (processTier env addr height t = .ok none →
      ∀ res, sweepAllCoinsTransactions env address = .ok res →
        (∀ td, (t, td) ∉ res.transactions) ∧
        (∀ t2 d r, t2 ∈ targets →
          processTier env addr height t2 = .ok (some (d, r)) →
          (t2, d) ∈ res.transactions)) ∧
    (∀ e, processTier env addr height t = .error e →
      ∃ e2, sweepAllCoinsTransactions env address = .error e2) := by
  have hred := sweepAll_reduces env address addr height hdec hnet hpk hinfo
  constructor
  · intro hskip res hok
    rw [hred] at hok
    cases hloop : sweepLoop env addr height targets [] 0 with
    | error e => rw [hloop] at hok; exact absurd hok (by simp)
    | ok p =>
      rw [hloop] at hok
      obtain ⟨tdl, total⟩ := p
      simp only [] at hok
      have hres : res = { amt := total, transactions := tdl } :=
        (Except.ok.inj hok).symm
      constructor
      · intro td hmem
        rw [hres] at hmem
        rcases sweepLoop_mem env addr height targets [] 0 tdl total hloop
            (t, td) hmem with hin | ⟨-, r, hpt⟩
        · exact absurd hin (List.not_mem_nil _)
        · have hpt2 : processTier env addr height t = .ok (some (td, r)) := hpt
          rw [hskip] at hpt2
          exact absurd hpt2 (by simp)
      · intro t2 d r hmem2 hpt2
        rw [hres]
        exact sweepLoop_complete env addr height targets [] 0 tdl total hloop
          t2 d r hmem2 hpt2
  · intro e he
    obtain ⟨e2, h2⟩ := sweepLoop_abort env addr height targets [] 0 t e ht he
    rw [hred, h2]
    exact ⟨e2, rfl⟩

/-! Concrete sweep scenario exercising the planner theorems. -/

/-- A confirmed 5000-sat witness-pubkey-hash UTXO as returned by the
ListUnspent RPC. -/
def rawUtxoTest : RawUtxo :=
  { addressType := .witnessPubkeyHash, amountSat := 5000, confirmations := 3,
    pkScript := "00", txidBytes := List.replicate 32 0, outputIndex := 0 }

/-- A stand-in builder that sweeps the listed UTXOs into one output,
deducting a 100-sat fee. -/
def craftTest : Nat → Int → Nat → Address → List LnUtxo →
    Except CraftError SweepTx :=
  fun _ _ _ _ lu => .ok { txOut := [intSum (lu.map LnUtxo.value) - 100] }

theorem craftTest_underpays :
    ∀ (t : Nat) (fee : Int) (height : Nat) (addr : Address)
      (lu : List LnUtxo) (tx : SweepTx),
      craftTest t fee height addr lu = .ok tx →
      intSum tx.txOut < intSum (lu.map LnUtxo.value) := by
  intro t fee height addr lu tx hc
  have h : SweepTx.mk [intSum (lu.map LnUtxo.value) - 100] = tx :=
    Except.ok.inj hc
  rw [← h]
  simp only [intSum]
  omega

/-- A planner environment in which every stage succeeds. -/
def envFeeTest : SweepEnv :=
  { decodeAddress := fun s => some { rendered := s }
    isForNet := fun _ => true
    parsePubKey := fun _ => false
    getInfo := .ok 700000
    estimateFee := fun _ => .ok 10
    listUnspent := fun _ => .ok [rawUtxoTest]
    craft := craftTest
    serializeTx := fun _ => .ok [0]
    txHashStr := fun _ => "txid" }

/-- The tier record envFeeTest produces: fee 5000 − 4900 = 100. -/
def tdTest : TransactionDetails := { tx := [0], txHash := "txid", fees := 100 }

def resFeeTest : SweepAllCoins :=
  { amt := 5000, transactions := [(2, tdTest), (6, tdTest), (25, tdTest)] }

theorem SweepAllCoinsTransactions_fee_accounting_witness :
    ∃ raws lu tx,
      envFeeTest.listUnspent 2 = .ok raws ∧
      (∃ total, listUnspentLoop raws = .ok (lu, total)) ∧
      (∃ fee height2 addr2, envFeeTest.craft 2 fee height2 addr2 lu = .ok tx) ∧
      tdTest.fees = intSum (lu.map LnUtxo.value) - intSum tx.txOut ∧
      0 < tdTest.fees :=
  SweepAllCoinsTransactions_fee_accounting envFeeTest "a" craftTest_underpays
    resFeeTest 2 tdTest rfl (by decide)

/-- Environment whose pubkey parse succeeds exactly on the two bytes
02 aa, the hex decoding of the address string used below. -/
def envPubkeyTest : SweepEnv :=
  { envFeeTest with parsePubKey := fun bs => decide (bs = [2, 170]) }

theorem SweepAllCoinsTransactions_rejects_pubkey_witness :
    sweepAllCoinsTransactions envPubkeyTest "02aa" =
      .error "cannot send coins to pubkeys" :=
  SweepAllCoinsTransactions_rejects_pubkey envPubkeyTest "02aa"
    { rendered := "02aa" } rfl rfl (by decide)

/-- Builder failing the 2-blocks tier with a rule (dust) error and
succeeding elsewhere. -/
def craftSkip2Test : Nat → Int → Nat → Address → List LnUtxo →
    Except CraftError SweepTx :=
  fun t fee height addr lu =>
    if t = 2 then .error (.ruleError "output below dust")
    else craftTest t fee height addr lu

def envSkipTest : SweepEnv := { envFeeTest with craft := craftSkip2Test }

def resSkipTest : SweepAllCoins :=
  { amt := 5000, transactions := [(6, tdTest), (25, tdTest)] }

theorem SweepAllCoinsTransactions_tier_skip_abort_witness :
    ((2 : Nat), tdTest) ∉ resSkipTest.transactions ∧
    ((6 : Nat), tdTest) ∈ resSkipTest.transactions :=
  ⟨((SweepAllCoinsTransactions_tier_skip_abort envSkipTest "a"
        { rendered := "a" } 700000 2 rfl rfl rfl rfl (by decide)).1
      rfl resSkipTest rfl).1 tdTest,
   ((SweepAllCoinsTransactions_tier_skip_abort envSkipTest "a"
        { rendered := "a" } 700000 2 rfl rfl rfl rfl (by decide)).1
      rfl resSkipTest rfl).2 6 tdTest 5000 (by decide) rfl⟩

end Breez
